import Mathlib

/-!
Verification development for the workflow graph compiler and sequential
execution engine of `ai_backend/workflow_executor.py`.

Python strings are embedded as `List Char`; node and connection records are
embedded as Lean structures.  All definitions are transcribed from the source
file; the only definitions transcribed from the specification text instead are
marked with a doc comment starting `Modelled from the spec:` (the execution
engine, whose runtime loop lives in the external LangGraph library, and the
comparison definitions used to state refinement/claim mismatches).
-/

namespace WorkflowExec

/-! ## Python string primitives on `List Char` -/

/-- Python `str.lower()` restricted to the latin alphabet, as used by
`process_if_condition` (embedding of `value.lower()` / `check_value.lower()`). -/
def pyLower (s : List Char) : List Char := s.map Char.toLower

/-- Python `str.strip()` with no argument: remove leading and trailing
whitespace. -/
def pyStrip (s : List Char) : List Char :=
  ((s.dropWhile Char.isWhitespace).reverse.dropWhile Char.isWhitespace).reverse

/-- Python `needle in hay` on strings: contiguous substring test. -/
def isSubstrOf (needle : List Char) : List Char → Bool
  | [] => needle.isEmpty
  | c :: rest => needle.isPrefixOf (c :: rest) || isSubstrOf needle rest

/-- The affirmative token list of the `isYes` predicate
(`workflow_executor.py` line 761). -/
def affirmatives : List (List Char) :=
  [ "yes".toList, "y".toList, "true".toList, "1".toList, "correct".toList,
    "affirmative".toList, "yeah".toList, "yep".toList ]

/-- The negative token list of the `isNo` predicate
(`workflow_executor.py` line 765). -/
def negatives : List (List Char) :=
  [ "no".toList, "n".toList, "false".toList, "0".toList, "incorrect".toList,
    "negative".toList, "nope".toList, "nah".toList ]

/-- Embedding of the condition-evaluation chain of
`NodeProcessors.process_if_condition` (lines 743-766).  `value` is the
configured comparison value, `checkValue` the resolved field.  The outcome of
the external `re.search(value, check_value, re.IGNORECASE)` call is passed in
as `regexOutcome`; `Except.error` stands for the raised exception of a
malformed pattern, which the source's bare `except:` turns into `False`.
The function is total: no branch can raise. -/
def evalCondition (conditionType : String) (value checkValue : List Char)
    (regexOutcome : Except String Bool) : Bool :=
  if conditionType = "contains" then
    if value.isEmpty then false else isSubstrOf (pyLower value) (pyLower checkValue)
  else if conditionType = "equals" then
    pyStrip (pyLower checkValue) == pyStrip (pyLower value)
  else if conditionType = "startsWith" then
    if value.isEmpty then false
    else (pyStrip (pyLower value)).isPrefixOf (pyStrip (pyLower checkValue))
  else if conditionType = "endsWith" then
    if value.isEmpty then false
    else (pyStrip (pyLower value)).isSuffixOf (pyStrip (pyLower checkValue))
  else if conditionType = "regex" then
    if value.isEmpty then false
    else
      match regexOutcome with
      | Except.ok b => b
      | Except.error _ => false
  else if conditionType = "isYes" then
    affirmatives.contains (pyStrip (pyLower checkValue))
  else if conditionType = "isNo" then
    negatives.contains (pyStrip (pyLower checkValue))
  else false

/-! ## The branch router -/

/-- LangGraph's terminal sentinel `END` (the reserved id `"__end__"`). -/
def ENDS : String := "__end__"

/-- Embedding of the router closure built by `make_router`
(`workflow_executor.py` lines 877-886): given the recorded condition result,
route to the first true-target when the result is true and one exists, to the
first false-target when the result is false and one exists, and to `END`
otherwise. -/
def routerFn (trueTgts falseTgts : List String) (result : Bool) : String :=
  match result, trueTgts, falseTgts with
  | true, t :: _, _ => t
  | false, _, f :: _ => f
  | _, _, _ => ENDS

/-- Modelled from the spec: the router that claim C2 describes, with its
cross fallback — "otherwise it falls back to the first target of whichever
target list (true or false) is non-empty; it routes to the terminal sentinel
END only when both target lists are empty".  Used only to exhibit the
divergence from `routerFn`. -/
def claimRouter (trueTgts falseTgts : List String) (result : Bool) : String :=
  if result && !trueTgts.isEmpty then trueTgts.headD ENDS
  else if !result && !falseTgts.isEmpty then falseTgts.headD ENDS
  else if !trueTgts.isEmpty then trueTgts.headD ENDS
  else if !falseTgts.isEmpty then falseTgts.headD ENDS
  else ENDS

/-! ## Workflow data model -/

/-- The configuration mapping of a node (`node.data`), restricted to the keys
that `process_if_condition` reads.  Absent keys are `none`; the source reads
them with `node_data.get(key, default)`. -/
structure NodeData where
  conditionType : Option String := none
  field : Option String := none
  conditionValue : Option (List Char) := none
  value : Option (List Char) := none
deriving DecidableEq

/-- A workflow node: unique id, kind string, configuration. -/
structure WNode where
  id : String
  type : String
  data : NodeData := {}
deriving DecidableEq

/-- A directed connection between a source node's port and a target node's
port (`conn.sourceNodeId`, `conn.sourcePortId`, ...). -/
structure WConn where
  sourceNodeId : String
  sourcePortId : String := ""
  targetNodeId : String
  targetPortId : String := ""
deriving DecidableEq

/-- A workflow description: node list plus connection list, both in
declaration order. -/
structure Workflow where
  nodes : List WNode
  connections : List WConn
deriving DecidableEq

/-! ## Node and adjacency lookups -/

/-- First-occurrence key deduplication, mirroring Python dict-key order for
`{n.id: ... for n in workflow.nodes}`. -/
def dedupKeysGo : List String → List String → List String
  | [], _ => []
  | x :: xs, seen => if x ∈ seen then dedupKeysGo xs seen else x :: dedupKeysGo xs (x :: seen)

/-- The node ids in Python dict-key order (first occurrence wins for order). -/
def sourceIds (w : Workflow) : List String := dedupKeysGo (w.nodes.map (·.id)) []

/-- The node stored under an id in `nodes = {n.id: n for n in workflow.nodes}`
(for a duplicated id the last declaration wins, as in a Python dict). -/
def nodeOf (w : Workflow) (nid : String) : Option WNode :=
  (w.nodes.filter (·.id = nid)).getLast?

/-- The kind string of the node registered under `nid`, if any. -/
def nodeType (w : Workflow) (nid : String) : Option String :=
  (nodeOf w nid).map (·.type)

/-- Membership of `nid` in one of the kind sets built at lines 820-824. -/
def isKind (w : Workflow) (nid : String) (k : String) : Bool :=
  nodeType w nid == some k

def isIfNode (w : Workflow) (nid : String) : Bool := isKind w nid "if-condition"

def isRagNode (w : Workflow) (nid : String) : Bool := isKind w nid "rag-documents"

def isSheetsNode (w : Workflow) (nid : String) : Bool := isKind w nid "google-sheets"

def isAiNode (w : Workflow) (nid : String) : Bool := isKind w nid "ai-model"

def isInputNode (w : Workflow) (nid : String) : Bool :=
  isKind w nid "text-input" || isKind w nid "voice-input"

/-- Does some node of the workflow carry this id (`nid in nodes`)? -/
def nodeIdsContain (w : Workflow) (nid : String) : Bool := w.nodes.any (·.id = nid)

/-- The adjacency entry of a node: `(targetNodeId, sourcePortId, targetPortId)`
triples of its outgoing connections, in connection declaration order
(lines 813-817). -/
def adjacencyTargets (w : Workflow) (s : String) : List (String × String × String) :=
  (w.connections.filter (·.sourceNodeId = s)).map
    (fun c => (c.targetNodeId, c.sourcePortId, c.targetPortId))

/-! ## RAG / Sheets to AI mappings (lines 827-842) -/

/-- The rag-documents node ids, in node declaration order (the source iterates
the Python set `rag_nodes`; declaration order is the fixed iteration order
chosen by this embedding). -/
def ragNodeIds (w : Workflow) : List String := (sourceIds w).filter (isRagNode w)

/-- The google-sheets node ids, in node declaration order. -/
def sheetsNodeIds (w : Workflow) : List String := (sourceIds w).filter (isSheetsNode w)

/-- `ai_from_rag[a]`: the last rag node (in iteration order) having a
connection to the ai-model node `a` (lines 829-833; later assignments to the
same key overwrite earlier ones). -/
def aiFromRag (w : Workflow) (a : String) : Option String :=
  (ragNodeIds w).foldl
    (fun acc r =>
      if (adjacencyTargets w r).any (fun t => t.1 == a && isAiNode w t.1) then some r else acc)
    none

/-- `ai_from_sheets[a]`: the last sheets node having a connection to the
ai-model node `a` (lines 838-842). -/
def aiFromSheets (w : Workflow) (a : String) : Option String :=
  (sheetsNodeIds w).foldl
    (fun acc s =>
      if (adjacencyTargets w s).any (fun t => t.1 == a && isAiNode w t.1) then some s else acc)
    none

/-! ## Edge building (lines 860-952) -/

/-- An edge of the compiled plan. -/
abbrev Edge := String × String

/-- The target actually wired for one literal outgoing connection of an input
node (lines 902-931): a target ai-model with a rag feed is replaced by the rag
node, else with a sheets feed by the sheets node; all remaining branches wire
the literal target itself. -/
def inputRedirectTarget (w : Workflow) (t : String) : String :=
  if isAiNode w t then
    match aiFromRag w t with
    | some r => r
    | none =>
      match aiFromSheets w t with
      | some sh => sh
      | none => t
  else t

/-- Add one edge, skipping it when the `(source, target)` pair is already in
`added_edges` (the second accumulator component). -/
def dedupAdd (s tgt : String) (acc : List Edge × List Edge) : List Edge × List Edge :=
  if (s, tgt) ∈ acc.2 then acc else (acc.1 ++ [(s, tgt)], (s, tgt) :: acc.2)

/-- One iteration of the edge-building loop for the source node `s`
(lines 866-952).  The first accumulator component is the plain edge list in
insertion order, the second is `added_edges`.  An if-condition source adds its
conditional edges elsewhere but still records all its `(source, target)` pairs
in `added_edges` (lines 897-898); an input source redirects ai-model targets
through their rag/sheets feeder; every other source adds its literal edges.
The rag, sheets and default branches of the source are textually identical,
so they share one transcription. -/
def blockStep (w : Workflow) (acc : List Edge × List Edge) (s : String) :
    List Edge × List Edge :=
  let tgts := adjacencyTargets w s
  if tgts.isEmpty then acc
  else if isIfNode w s then
    (acc.1, tgts.foldl (fun ad t => (s, t.1) :: ad) acc.2)
  else if isInputNode w s then
    tgts.foldl (fun a t => dedupAdd s (inputRedirectTarget w t.1) a) acc
  else
    tgts.foldl (fun a t => dedupAdd s t.1 a) acc

/-- The full edge-building fold over all sources in dict order. -/
def buildAcc (w : Workflow) : List Edge × List Edge :=
  (sourceIds w).foldl (blockStep w) ([], [])

/-- The plain (non-conditional) edges of the compiled plan, in insertion
order. -/
def plainEdges (w : Workflow) : List Edge := (buildAcc w).1

/-- The `exit → END` edges added for nodes without outgoing connections
(lines 980-984). -/
def exitEdges (w : Workflow) : List Edge :=
  (sourceIds w).filterMap
    (fun s =>
      if (adjacencyTargets w s).isEmpty && !isIfNode w s then some (s, ENDS) else none)

/-- All plain edges the compiled graph carries. -/
def allEdges (w : Workflow) : List Edge := plainEdges w ++ exitEdges w

/-- The true-branch targets of a conditional node: targets of connections
whose source-port id contains `"true"` after lowering (line 874). -/
def trueTargets (w : Workflow) (s : String) : List String :=
  ((adjacencyTargets w s).filter
    (fun t => isSubstrOf "true".toList (pyLower t.2.1.toList))).map (·.1)

/-- The false-branch targets of a conditional node (line 875). -/
def falseTargets (w : Workflow) (s : String) : List String :=
  ((adjacencyTargets w s).filter
    (fun t => isSubstrOf "false".toList (pyLower t.2.1.toList))).map (·.1)

/-! ## Entry point resolution (lines 954-978) -/

/-- The number of incoming connections of a node in the original graph. -/
def originalIncoming (w : Workflow) (nid : String) : Nat :=
  (w.connections.filter (·.targetNodeId = nid)).length

/-- The entry candidates: nodes with no incoming connection in the original
graph, in declaration order. -/
def entryCandidates (w : Workflow) : List String :=
  (sourceIds w).filter (fun nid => originalIncoming w nid == 0)

/-- The resolved entry point: the first input-kind candidate, else the first
rag-kind candidate, else the first sheets-kind candidate, else the first
candidate; `none` when there is no candidate (then `compile()` fails). -/
def entryPoint (w : Workflow) : Option String :=
  match (entryCandidates w).filter (isInputNode w) with
  | i :: _ => some i
  | [] =>
    match (entryCandidates w).filter (isRagNode w) with
    | r :: _ => some r
    | [] =>
      match (entryCandidates w).filter (isSheetsNode w) with
      | s :: _ => some s
      | [] => (entryCandidates w).head?

/-- Modelled from the spec: the entry tie-break exactly as claim C6 words it —
"preferring an input-kind node, then a retrieval-kind node, then declaration
order" — with no spreadsheet tier.  Used only to exhibit the divergence from
`entryPoint`. -/
def claimEntryPoint (w : Workflow) : Option String :=
  match (entryCandidates w).filter (isInputNode w) with
  | i :: _ => some i
  | [] =>
    match (entryCandidates w).filter (isRagNode w) with
    | r :: _ => some r
    | [] => (entryCandidates w).head?

/-! ## Execution state (`WorkflowState`, lines 98-121) -/

/-- The mutable execution state threaded through one traversal.  The fields
the core logic itself reads or writes are embedded; maps become association
lists where a fresh binding is consed in front, so the first hit is the most
recent write, matching Python dict assignment. -/
structure WState where
  user_message : String
  conversation_history : List (String × String) := []
  response : String := ""
  rag_context : Option String := none
  sheets_data : Option String := none
  condition_results : List (String × Bool) := []
  nodes_executed : List String := []
  model_used : Option String := none
  output_variables : List (String × String) := []
deriving DecidableEq

/-- Dict lookup in an association list (most recent binding first). -/
def lookupStr (m : List (String × String)) (k : String) : Option String :=
  (m.find? (·.1 = k)).map (·.2)

/-- Dict lookup for the condition-result map. -/
def lookupBool (m : List (String × Bool)) (k : String) : Option Bool :=
  (m.find? (·.1 = k)).map (·.2)

/-- Append the kind tag of an executed node to the execution log. -/
def appendTag (tag : String) (st : WState) : WState :=
  { st with nodes_executed := st.nodes_executed ++ [tag] }

/-- The regex oracle: outcome of `re.search(value, check_value, re.IGNORECASE)`
for a given pattern and subject; `Except.error` models a raised exception for
a malformed pattern.  It abstracts the external `re` library. -/
abbrev RegexOracle := List Char → List Char → Except String Bool

/-- Embedding of `NodeProcessors.process_if_condition` (lines 717-770):
append the tag, resolve the checked field (literal `"message"` and
`"response"` first, then the output-variable map, defaulting to the current
response), evaluate the condition, and record the boolean under the node id. -/
def procIfCondition (w : Workflow) (rex : RegexOracle) (nid : String) (st : WState) :
    WState :=
  let st := appendTag "if-condition" st
  let nd := ((nodeOf w nid).map (·.data)).getD {}
  let ctype := nd.conditionType.getD "contains"
  let fld := nd.field.getD "response"
  let value := nd.conditionValue.getD (nd.value.getD [])
  let checkValue : List Char :=
    if fld = "message" then st.user_message.toList
    else if fld = "response" then st.response.toList
    else
      match lookupStr st.output_variables fld with
      | some v => v.toList
      | none => st.response.toList
  let result := evalCondition ctype value checkValue (rex value checkValue)
  { st with condition_results := (nid, result) :: st.condition_results }

/-- Does `_get_processor` (lines 988-1000) know this node's kind? -/
def hasProcessor (w : Workflow) (nid : String) : Bool :=
  if nodeType w nid = some "text-input" then true
  else if nodeType w nid = some "voice-input" then true
  else if nodeType w nid = some "ai-model" then true
  else if nodeType w nid = some "rag-documents" then true
  else if nodeType w nid = some "google-sheets" then true
  else if nodeType w nid = some "if-condition" then true
  else if nodeType w nid = some "text-output" then true
  else if nodeType w nid = some "voice-output" then true
  else false

/-- Run one node's processor on the state.  Every processor first appends its
kind tag to `nodes_executed`; `voice-input` shares `process_text_input` and
`voice-output` shares `process_text_output`, so both log the text tags.  The
bodies of the ai-model, rag and sheets processors beyond the log append call
external collaborators (LLM, FAISS, gspread) and only write the response and
context slots, which no compiled-plan decision reads back except through
if-conditions; those writes are therefore left untouched here, while the
if-condition processor — whose writes the routers do read — is embedded in
full. -/
def applyProc (w : Workflow) (rex : RegexOracle) (nid : String) (st : WState) : WState :=
  if nodeType w nid = some "text-input" then appendTag "text-input" st
  else if nodeType w nid = some "voice-input" then appendTag "text-input" st
  else if nodeType w nid = some "ai-model" then appendTag "ai-model" st
  else if nodeType w nid = some "rag-documents" then appendTag "rag-documents" st
  else if nodeType w nid = some "google-sheets" then appendTag "google-sheets" st
  else if nodeType w nid = some "if-condition" then procIfCondition w rex nid st
  else if nodeType w nid = some "text-output" then appendTag "text-output" st
  else if nodeType w nid = some "voice-output" then appendTag "text-output" st
  else st

/-! ## The sequential execution engine -/

/-- Modelled from the spec: the runtime loop itself lives in the external
LangGraph library (`compiled.invoke`), so the traversal is embedded after
spec section 4.4 — "states are node ids plus the terminal sentinel END;
transitions follow the Compiled Plan's plain edges or, for conditional nodes,
the router's decision", with a visit budget (LangGraph's default recursion
limit is 25).  Where the compiled plan fans out, the traversal follows the
first compiled edge.  A node whose kind has no processor was never added to
the graph, and a router result outside the route map raises at runtime; both
are error outcomes, as is an exhausted budget. -/
def runFrom (w : Workflow) (rex : RegexOracle) (edges : List Edge) :
    Nat → String → WState → Except String WState
  | 0, _, _ => Except.error "Recursion limit reached"
  | Nat.succ fuel, cur, st =>
    if hasProcessor w cur then
      let st' := applyProc w rex cur st
      if isIfNode w cur then
        let res := (lookupBool st'.condition_results cur).getD false
        let tgt := routerFn (trueTargets w cur) (falseTargets w cur) res
        if tgt = ENDS then Except.ok st'
        else if nodeIdsContain w tgt then runFrom w rex edges fuel tgt st'
        else Except.error ("Router target not in route map: " ++ tgt)
      else
        match (edges.filter (·.1 = cur)).head? with
        | none => Except.ok st'
        | some e => if e.2 = ENDS then Except.ok st' else runFrom w rex edges fuel e.2 st'
    else Except.error ("Node has no processor: " ++ cur)

/-- The initial execution state built by `execute` (lines 1025-1037). -/
def initState (message : String) (history : List (String × String)) : WState :=
  { user_message := message, conversation_history := history }

/-- Run a workflow's compiled plan from its resolved entry point. -/
def runExec (w : Workflow) (rex : RegexOracle) (message : String) :
    Except String WState :=
  match entryPoint w with
  | none => Except.error "Graph must have an entrypoint"
  | some e => runFrom w rex (allEdges w) 25 e (initState message [])

/-! ## Graph building as a fallible operation, and `execute` (lines 1002-1055) -/

/-- The compiled plan handed to the runtime. -/
structure CompiledPlan where
  edges : List Edge
  entry : String
deriving DecidableEq

/-- `_build_graph` followed by `graph.compile()` as one fallible step, the
way the `try` block of `execute` runs them: a connection referencing an
unknown node id raises a `KeyError` at lines 816-817 (source id is indexed
first), and a graph without entry candidates never calls `set_entry_point`,
so `compile()` rejects it. -/
def buildGraph (w : Workflow) : Except String CompiledPlan :=
  match w.connections.find?
      (fun c => !nodeIdsContain w c.sourceNodeId || !nodeIdsContain w c.targetNodeId) with
  | some c =>
    Except.error
      ("KeyError: " ++ (if nodeIdsContain w c.sourceNodeId then c.targetNodeId else c.sourceNodeId))
  | none =>
    match entryPoint w with
    | none => Except.error "Graph must have an entrypoint"
    | some e => Except.ok { edges := allEdges w, entry := e }

/-- The structured result `execute` always returns (lines 1018-1022,
1042-1048, 1051-1055). -/
structure ExecResult where
  response : String
  nodes_executed : List String
  model_used : Option String
deriving DecidableEq

/-- Embedding of `WorkflowExecutor.execute`: build the graph inside a
`try`/`except` that converts any failure into an error-response result, then
invoke the compiled plan inside a second `try`/`except` doing the same.  The
invocation outcome is abstracted as the `run` argument, since the runtime
(and the node behaviors it awaits) are external collaborators; any failure
they raise surfaces as `Except.error` here.  The function is total: every
outcome maps to a structured `ExecResult`. -/
def executeModel (w : Workflow) (run : CompiledPlan → Except String WState) : ExecResult :=
  match buildGraph w with
  | Except.error e =>
    { response := "Error building workflow: " ++ e, nodes_executed := [], model_used := none }
  | Except.ok p =>
    match run p with
    | Except.error e =>
      { response := "Error executing workflow: " ++ e, nodes_executed := [], model_used := none }
    | Except.ok st =>
      { response := st.response, nodes_executed := st.nodes_executed,
        model_used := st.model_used }

/-! ## Validation (lines 1057-1092) -/

/-- The ids referenced by some connection endpoint. -/
def connectedNodeIds (w : Workflow) : List String :=
  w.connections.foldl (fun acc c => c.targetNodeId :: c.sourceNodeId :: acc) []

/-- The orphan check of `validate_workflow` (lines 1076-1082). -/
def orphanIds (w : Workflow) : List String :=
  (w.nodes.filter
    (fun n => !(connectedNodeIds w).contains n.id && decide (1 < w.nodes.length))).map (·.id)

def inputIssue : String := "Workflow needs an input node (text-input or voice-input)"

def outputIssue : String := "Workflow needs an output node (text-output or voice-output)"

def aiIssue : String := "Workflow needs an AI model node"

/-- The advisory validation result. -/
structure ValidationResult where
  valid : Bool
  issues : List String
  node_count : Nat
  connection_count : Nat
deriving DecidableEq

/-- Embedding of `WorkflowExecutor.validate_workflow`: three required-kind
checks, the orphan check, and `valid` true exactly when no issue was
collected.  (The orphan issue interpolates the Python repr of the id list;
only its presence matters to any stated property, so the interpolation is a
plain comma join here.) -/
def validateWorkflow (w : Workflow) : ValidationResult :=
  let types := w.nodes.map (·.type)
  let hasInput := types.contains "text-input" || types.contains "voice-input"
  let hasOutput := types.contains "text-output" || types.contains "voice-output"
  let hasAi := types.contains "ai-model"
  let orphans := orphanIds w
  let issues :=
    (if !hasInput then [inputIssue] else []) ++
    (if !hasOutput then [outputIssue] else []) ++
    (if !hasAi then [aiIssue] else []) ++
    (if !orphans.isEmpty then
      ["Orphan nodes (not connected): " ++ String.intercalate ", " orphans] else [])
  { valid := issues.isEmpty, issues := issues,
    node_count := w.nodes.length, connection_count := w.connections.length }

/-! ## Character and strip lemmas -/

lemma toNat_ofNat_valid {n : Nat} (h : n.isValidChar) : (Char.ofNat n).toNat = n := by
  rw [Char.ofNat, dif_pos h]
  simp [Char.ofNatAux, Char.toNat, UInt32.toNat, BitVec.toNat_ofNatLt]

lemma toLower_isWhitespace (c : Char) :
    (Char.toLower c).isWhitespace = c.isWhitespace := by
  rw [Char.toLower]
  by_cases h : c.toNat ≥ 65 ∧ c.toNat ≤ 90
  · rw [if_pos h]
    have hv : (c.toNat + 32).isValidChar := Or.inl (by omega)
    have htn : (Char.ofNat (c.toNat + 32)).toNat = c.toNat + 32 := toNat_ofNat_valid hv
    have hws : ∀ d : Char, d.isWhitespace = true → d.toNat = 32 ∨ d.toNat = 9 ∨
        d.toNat = 13 ∨ d.toNat = 10 := by
      intro d hd
      rw [Char.isWhitespace] at hd
      simp only [Bool.or_eq_true, decide_eq_true_eq] at hd
      rcases hd with ((h1 | h1) | h1) | h1 <;> subst h1 <;> decide
    have hl : (Char.ofNat (c.toNat + 32)).isWhitespace = false := by
      cases hh : (Char.ofNat (c.toNat + 32)).isWhitespace
      · rfl
      · rcases hws _ hh with h1 | h1 | h1 | h1 <;> rw [htn] at h1 <;> omega
    have hr : c.isWhitespace = false := by
      cases hh : c.isWhitespace
      · rfl
      · rcases hws _ hh with h1 | h1 | h1 | h1 <;> omega
    rw [hl, hr]
  · rw [if_neg h]

lemma pyStrip_eq_nil_iff (s : List Char) :
    pyStrip s = [] ↔ ∀ c ∈ s, c.isWhitespace = true := by
  have hall : ∀ (l : List Char),
      (∀ c ∈ l.dropWhile Char.isWhitespace, c.isWhitespace = true) ↔
      (∀ c ∈ l, c.isWhitespace = true) := by
    intro l
    constructor
    · intro hd c hc
      rw [← List.takeWhile_append_dropWhile (p := Char.isWhitespace) (l := l)] at hc
      rcases List.mem_append.mp hc with h1 | h1
      · exact List.mem_takeWhile_imp h1
      · exact hd c h1
    · intro hl c hc
      refine hl c ?_
      rw [← List.takeWhile_append_dropWhile (p := Char.isWhitespace) (l := l)]
      exact List.mem_append.mpr (Or.inr hc)
  rw [pyStrip, List.reverse_eq_nil_iff, List.dropWhile_eq_nil_iff]
  constructor
  · intro hd
    rw [← hall]
    intro c hc
    exact hd c (List.mem_reverse.mpr hc)
  · intro hl c hc
    exact (hall s).mpr hl c (List.mem_reverse.mp hc)

lemma pyStrip_pyLower_eq_nil_iff (s : List Char) :
    pyStrip (pyLower s) = [] ↔ pyStrip s = [] := by
  rw [pyStrip_eq_nil_iff, pyStrip_eq_nil_iff, pyLower]
  constructor
  · intro hl c hc
    have := hl (Char.toLower c) (List.mem_map.mpr ⟨c, hc, rfl⟩)
    rwa [toLower_isWhitespace] at this
  · intro hl c hc
    rcases List.mem_map.mp hc with ⟨d, hd, rfl⟩
    rw [toLower_isWhitespace]
    exact hl d hd

lemma pyLower_isEmpty (s : List Char) : (pyLower s).isEmpty = s.isEmpty := by
  cases s <;> simp [pyLower]

/-! ## Claim C2 -/

/-- C2, counterexample: with a true condition result, no true-target and a
wired false-target, the compiled router routes to END, while the claim's
router ("fall back to the first target of whichever target list is non-empty;
END only when both lists are empty") routes to the false-target. -/
theorem C2_counterexample :
    routerFn [] ["fallback-target"] true = ENDS ∧
    claimRouter [] ["fallback-target"] true = "fallback-target" ∧
    ENDS ≠ "fallback-target" := by
  refine ⟨rfl, rfl, by decide⟩

/-- C2, amended: the compiled router routes to the first true-target when the
recorded result is true and one exists, to the first false-target when the
result is false and one exists, and to the terminal sentinel END otherwise —
there is no cross fallback to the other branch's target list. -/
theorem C2_amended (trueTgts falseTgts : List String) (result : Bool) :
    routerFn trueTgts falseTgts result =
      (if result then trueTgts else falseTgts).headD ENDS := by
  cases result <;> cases trueTgts <;> cases falseTgts <;> rfl

/-! ## Claim C7 -/

/-- C7: when the regex engine raises (malformed pattern), the recorded result
of a regex conditional is `false`; `evalCondition` is a total function, so no
exception escapes the condition-evaluation step. -/
theorem C7_regex_error_false (value checkValue : List Char) (e : String) :
    evalCondition "regex" value checkValue (Except.error e) = false := by
  by_cases h : value.isEmpty <;> simp [evalCondition, h]

/-! ## Claim C9 -/

/-- C9: for the contains, equals, startsWith and endsWith predicates the
recorded result only depends on the lowercased comparison value and the
lowercased checked field, so altering the case of either side never changes
the result. -/
theorem C9_case_insensitive (conditionType : String)
    (hct : conditionType = "contains" ∨ conditionType = "equals" ∨
      conditionType = "startsWith" ∨ conditionType = "endsWith")
    (value value' checkValue checkValue' : List Char)
    (ro ro' : Except String Bool)
    (hv : pyLower value' = pyLower value)
    (hcv : pyLower checkValue' = pyLower checkValue) :
    evalCondition conditionType value checkValue ro =
      evalCondition conditionType value' checkValue' ro' := by
  have hemp : value'.isEmpty = value.isEmpty := by
    rw [← pyLower_isEmpty value, ← pyLower_isEmpty value', hv]
  rcases hct with h | h | h | h <;> subst h <;>
    simp only [evalCondition, reduceIte, hemp, hv, hcv]

/-- Witness for C9 at concrete inputs: flipping the case of both the
comparison value and the checked field leaves the `contains` result
unchanged. -/
theorem C9_case_insensitive_witness :
    evalCondition "contains" "Ab".toList "xABy".toList (Except.ok false) =
      evalCondition "contains" "aB".toList "Xaby".toList (Except.error "e") :=
  C9_case_insensitive "contains" (Or.inl rfl) _ _ _ _ _ _ (by decide) (by decide)

/-! ## Claim C10 -/

/-- C10: with an empty comparison value, the contains, startsWith, endsWith
and regex predicates all record `false` whatever the checked field, while the
equals predicate records `true` exactly when the checked field is empty or
whitespace-only (its whitespace strip is empty). -/
theorem C10_empty_value (checkValue : List Char) (ro : Except String Bool) :
    evalCondition "contains" [] checkValue ro = false ∧
    evalCondition "startsWith" [] checkValue ro = false ∧
    evalCondition "endsWith" [] checkValue ro = false ∧
    evalCondition "regex" [] checkValue ro = false ∧
    (evalCondition "equals" [] checkValue ro = true ↔ pyStrip checkValue = []) := by
  refine ⟨rfl, rfl, rfl, rfl, ?_⟩
  show (pyStrip (pyLower checkValue) == pyStrip (pyLower [])) = true ↔ _
  rw [show pyStrip (pyLower []) = [] from rfl, beq_iff_eq, pyStrip_pyLower_eq_nil_iff]

/-! ## Source id and dedup lemmas -/

lemma mem_dedupKeysGo : ∀ (l seen : List String) (x : String),
    x ∈ dedupKeysGo l seen ↔ x ∈ l ∧ x ∉ seen := by
  intro l
  induction l with
  | nil => intro seen x; simp [dedupKeysGo]
  | cons a l ih =>
    intro seen x
    by_cases ha : a ∈ seen
    · rw [dedupKeysGo, if_pos ha, ih]
      constructor
      · rintro ⟨h1, h2⟩
        exact ⟨List.mem_cons_of_mem _ h1, h2⟩
      · rintro ⟨h1, h2⟩
        rcases List.mem_cons.mp h1 with rfl | h1
        · exact absurd ha h2
        · exact ⟨h1, h2⟩
    · rw [dedupKeysGo, if_neg ha, List.mem_cons, ih]
      constructor
      · rintro (rfl | ⟨h1, h2⟩)
        · exact ⟨List.mem_cons_self _ _, ha⟩
        · exact ⟨List.mem_cons_of_mem _ h1,
            fun hx => h2 (List.mem_cons_of_mem _ hx)⟩
      · rintro ⟨h1, h2⟩
        by_cases hxa : x = a
        · exact Or.inl hxa
        · rcases List.mem_cons.mp h1 with rfl | h1
          · exact Or.inl rfl
          · refine Or.inr ⟨h1, fun hx => ?_⟩
            rcases List.mem_cons.mp hx with rfl | hx
            · exact hxa rfl
            · exact h2 hx

lemma nodup_dedupKeysGo : ∀ (l seen : List String), (dedupKeysGo l seen).Nodup := by
  intro l
  induction l with
  | nil => intro seen; simp [dedupKeysGo]
  | cons a l ih =>
    intro seen
    by_cases ha : a ∈ seen
    · rw [dedupKeysGo, if_pos ha]; exact ih seen
    · rw [dedupKeysGo, if_neg ha]
      refine List.nodup_cons.mpr ⟨fun hmem => ?_, ih _⟩
      exact ((mem_dedupKeysGo l (a :: seen) a).mp hmem).2 (List.mem_cons_self _ _)

lemma sourceIds_nodup (w : Workflow) : (sourceIds w).Nodup := nodup_dedupKeysGo _ _

lemma mem_sourceIds (w : Workflow) (x : String) :
    x ∈ sourceIds w ↔ x ∈ w.nodes.map (·.id) := by
  rw [sourceIds, mem_dedupKeysGo]
  simp

lemma getLast?_mem' : ∀ (l : List α) (a : α), l.getLast? = some a → a ∈ l := by
  intro l
  induction l with
  | nil => intro a h; cases h
  | cons b l ih =>
    intro a h
    cases l with
    | nil =>
      simp only [List.getLast?_singleton, Option.some.injEq] at h
      simp [h]
    | cons c m =>
      rw [List.getLast?_cons_cons] at h
      exact List.mem_cons_of_mem _ (ih a h)

lemma nodeType_mem_sourceIds {w : Workflow} {x k : String}
    (h : nodeType w x = some k) : x ∈ sourceIds w := by
  rw [mem_sourceIds]
  rw [nodeType, nodeOf] at h
  cases hl : (w.nodes.filter (·.id = x)).getLast? with
  | none => rw [hl] at h; cases h
  | some n =>
    have hn := getLast?_mem' _ _ hl
    have := List.mem_filter.mp hn
    rcases this with ⟨hmem, hid⟩
    simp only [decide_eq_true_eq] at hid
    exact List.mem_map.mpr ⟨n, hmem, hid⟩

/-! ## Loop decomposition lemmas for the edge builder -/

/-- First-occurrence deduplication of an edge list against a seen set;
the shape every non-conditional source's block reduces to. -/
def dedupPairsGo : List Edge → List Edge → List Edge
  | [], _ => []
  | e :: rest, seen =>
    if e ∈ seen then dedupPairsGo rest seen else e :: dedupPairsGo rest (e :: seen)

lemma mem_dedupPairsGo : ∀ (l seen : List Edge), ∀ e ∈ dedupPairsGo l seen, e ∈ l := by
  intro l
  induction l with
  | nil => intro seen e h; cases h
  | cons c rest ih =>
    intro seen e h
    rw [dedupPairsGo] at h
    by_cases hc : c ∈ seen
    · rw [if_pos hc] at h
      exact List.mem_cons_of_mem _ (ih seen e h)
    · rw [if_neg hc] at h
      rcases List.mem_cons.mp h with rfl | h
      · exact List.mem_cons_self _ _
      · exact List.mem_cons_of_mem _ (ih _ e h)

lemma foldl_dedupAdd_edges (s : String) (f : String × String × String → String) :
    ∀ (tgts : List (String × String × String)) (es ad seen : List Edge),
      (∀ x : String, (s, x) ∈ ad ↔ (s, x) ∈ seen) →
      (tgts.foldl (fun a t => dedupAdd s (f t) a) (es, ad)).1 =
        es ++ dedupPairsGo (tgts.map (fun t => (s, f t))) seen := by
  intro tgts
  induction tgts with
  | nil => intro es ad seen _; simp [dedupPairsGo]
  | cons t rest ih =>
    intro es ad seen h
    rw [List.foldl_cons, List.map_cons, dedupPairsGo]
    by_cases hmem : (s, f t) ∈ ad
    · rw [dedupAdd, if_pos hmem, if_pos ((h (f t)).mp hmem)]
      exact ih es ad seen h
    · rw [dedupAdd, if_neg hmem, if_neg (fun hx => hmem ((h (f t)).mpr hx))]
      have hh : ∀ x : String, (s, x) ∈ ((s, f t) :: ad) ↔ (s, x) ∈ ((s, f t) :: seen) := by
        intro x
        rw [List.mem_cons, List.mem_cons, h]
      have := ih (es ++ [(s, f t)]) ((s, f t) :: ad) ((s, f t) :: seen) hh
      rw [this, List.append_assoc, List.singleton_append]

lemma foldl_dedupAdd_added (s : String) (f : String × String × String → String) :
    ∀ (tgts : List (String × String × String)) (es ad : List Edge),
      ∀ p ∈ (tgts.foldl (fun a t => dedupAdd s (f t) a) (es, ad)).2, p ∈ ad ∨ p.1 = s := by
  intro tgts
  induction tgts with
  | nil => intro es ad p h; exact Or.inl h
  | cons t rest ih =>
    intro es ad p h
    rw [List.foldl_cons] at h
    by_cases hmem : (s, f t) ∈ ad
    · rw [dedupAdd, if_pos hmem] at h
      exact ih es ad p h
    · rw [dedupAdd, if_neg hmem] at h
      rcases ih _ _ p h with h1 | h1
      · rcases List.mem_cons.mp h1 with rfl | h1
        · exact Or.inr rfl
        · exact Or.inl h1
      · exact Or.inr h1

lemma foldl_cons_added (s : String) :
    ∀ (tgts : List (String × String × String)) (ad : List Edge),
      ∀ p ∈ tgts.foldl (fun ad t => (s, t.1) :: ad) ad, p ∈ ad ∨ p.1 = s := by
  intro tgts
  induction tgts with
  | nil => intro ad p h; exact Or.inl h
  | cons t rest ih =>
    intro ad p h
    rw [List.foldl_cons] at h
    rcases ih _ p h with h1 | h1
    · rcases List.mem_cons.mp h1 with rfl | h1
      · exact Or.inr rfl
      · exact Or.inl h1
    · exact Or.inr h1

/-! ## Per-source block edges and the decomposition of `plainEdges` -/

/-- The plain edges contributed by one source node, in isolation: nothing for
an empty adjacency or an if-condition source; redirected, deduplicated edges
for an input source; literal deduplicated edges for every other source. -/
def blockEdgesOf (w : Workflow) (s : String) : List Edge :=
  let tgts := adjacencyTargets w s
  if tgts.isEmpty then []
  else if isIfNode w s then []
  else if isInputNode w s then
    dedupPairsGo (tgts.map (fun t => (s, inputRedirectTarget w t.1))) []
  else dedupPairsGo (tgts.map (fun t => (s, t.1))) []

lemma blockEdgesOf_fst (w : Workflow) (s : String) :
    ∀ e ∈ blockEdgesOf w s, e.1 = s := by
  intro e he
  rw [blockEdgesOf] at he
  by_cases h1 : (adjacencyTargets w s).isEmpty
  · rw [if_pos h1] at he; cases he
  · rw [if_neg h1] at he
    by_cases h2 : isIfNode w s
    · rw [if_pos h2] at he; cases he
    · rw [if_neg h2] at he
      by_cases h3 : isInputNode w s
      · rw [if_pos h3] at he
        have := mem_dedupPairsGo _ _ e he
        rcases List.mem_map.mp this with ⟨t, _, rfl⟩
        rfl
      · rw [if_neg h3] at he
        have := mem_dedupPairsGo _ _ e he
        rcases List.mem_map.mp this with ⟨t, _, rfl⟩
        rfl

lemma blockStep_added (w : Workflow) (s : String) (es ad : List Edge) :
    ∀ p ∈ (blockStep w (es, ad) s).2, p ∈ ad ∨ p.1 = s := by
  intro p h
  rw [blockStep] at h
  by_cases h1 : (adjacencyTargets w s).isEmpty
  · rw [if_pos h1] at h; exact Or.inl h
  · rw [if_neg h1] at h
    by_cases h2 : isIfNode w s
    · rw [if_pos h2] at h
      exact foldl_cons_added s _ ad p h
    · rw [if_neg h2] at h
      by_cases h3 : isInputNode w s
      · rw [if_pos h3] at h
        exact foldl_dedupAdd_added s _ _ es ad p h
      · rw [if_neg h3] at h
        exact foldl_dedupAdd_added s _ _ es ad p h

lemma blockStep_edges (w : Workflow) (s : String) (es ad : List Edge)
    (had : ∀ x : String, (s, x) ∉ ad) :
    (blockStep w (es, ad) s).1 = es ++ blockEdgesOf w s := by
  rw [blockStep, blockEdgesOf]
  have hiff : ∀ x : String, (s, x) ∈ ad ↔ (s, x) ∈ ([] : List Edge) := by
    intro x
    simp [had x]
  by_cases h1 : (adjacencyTargets w s).isEmpty
  · rw [if_pos h1, if_pos h1]
    simp
  · rw [if_neg h1, if_neg h1]
    by_cases h2 : isIfNode w s
    · rw [if_pos h2, if_pos h2]
      simp
    · rw [if_neg h2, if_neg h2]
      by_cases h3 : isInputNode w s
      · rw [if_pos h3, if_pos h3]
        exact foldl_dedupAdd_edges s _ _ es ad [] hiff
      · rw [if_neg h3, if_neg h3]
        exact foldl_dedupAdd_edges s _ _ es ad [] hiff

lemma foldl_blockStep_edges (w : Workflow) :
    ∀ (srcs : List String) (es ad : List Edge),
      srcs.Nodup → (∀ p ∈ ad, p.1 ∉ srcs) →
      (srcs.foldl (blockStep w) (es, ad)).1 =
        es ++ ((srcs.map (blockEdgesOf w)).flatten) := by
  intro srcs
  induction srcs with
  | nil => intro es ad _ _; simp
  | cons s rest ih =>
    intro es ad hnd had
    have hs_rest : s ∉ rest := (List.nodup_cons.mp hnd).1
    have hstep : (blockStep w (es, ad) s).1 = es ++ blockEdgesOf w s :=
      blockStep_edges w s es ad
        (fun x hx => (had _ hx) (List.mem_cons_self _ _))
    have had' : ∀ p ∈ (blockStep w (es, ad) s).2, p.1 ∉ rest := by
      intro p hp
      rcases blockStep_added w s es ad p hp with h1 | h1
      · exact fun hr => had p h1 (List.mem_cons_of_mem _ hr)
      · rw [h1]; exact hs_rest
    rw [List.foldl_cons, ← Prod.mk.eta (p := blockStep w (es, ad) s)]
    rw [ih _ _ (List.nodup_cons.mp hnd).2 had', hstep]
    rw [List.map_cons, List.flatten_cons, List.append_assoc]

lemma plainEdges_eq (w : Workflow) :
    plainEdges w = ((sourceIds w).map (blockEdgesOf w)).flatten := by
  rw [plainEdges, buildAcc]
  have := foldl_blockStep_edges w (sourceIds w) [] [] (sourceIds_nodup w)
    (by intro p hp; cases hp)
  rw [this, List.nil_append]

lemma mem_plainEdges (w : Workflow) (e : Edge) :
    e ∈ plainEdges w ↔ ∃ s ∈ sourceIds w, e ∈ blockEdgesOf w s := by
  rw [plainEdges_eq, List.mem_flatten]
  constructor
  · rintro ⟨l, hl, hel⟩
    rcases List.mem_map.mp hl with ⟨s, hs, rfl⟩
    exact ⟨s, hs, hel⟩
  · rintro ⟨s, hs, he⟩
    exact ⟨blockEdgesOf w s, List.mem_map.mpr ⟨s, hs, rfl⟩, he⟩

lemma filter_flatten_blocks (f : String → List Edge)
    (hf : ∀ s' e, e ∈ f s' → e.1 = s') :
    ∀ (srcs : List String), srcs.Nodup → ∀ s ∈ srcs,
      ((srcs.map f).flatten.filter (fun e => e.1 = s)) = f s := by
  intro srcs
  induction srcs with
  | nil => intro _ s hs; cases hs
  | cons a rest ih =>
    intro hnd s hs
    rw [List.map_cons, List.flatten_cons, List.filter_append]
    rcases List.mem_cons.mp hs with rfl | hs'
    · have h1 : (f s).filter (fun e => e.1 = s) = f s :=
        List.filter_eq_self.mpr (fun e he => by simp [hf s e he])
      have h2 : ((rest.map f).flatten.filter (fun e => e.1 = s)) = [] := by
        rw [List.filter_eq_nil_iff]
        intro e he
        rcases List.mem_flatten.mp he with ⟨l, hl, hel⟩
        rcases List.mem_map.mp hl with ⟨s', hrest, rfl⟩
        have hfst := hf s' e hel
        simp only [decide_eq_true_eq]
        intro hes
        have hss : s' = s := by rw [← hfst, hes]
        rw [hss] at hrest
        exact (List.nodup_cons.mp hnd).1 hrest
      rw [h1, h2, List.append_nil]
    · have hne : a ≠ s := fun h => (List.nodup_cons.mp hnd).1 (h ▸ hs')
      have h1 : (f a).filter (fun e => e.1 = s) = [] := by
        rw [List.filter_eq_nil_iff]
        intro e he
        have hfst := hf a e he
        simp only [decide_eq_true_eq]
        intro hes
        exact hne (by rw [← hfst, hes])
      rw [h1, List.nil_append]
      exact ih (List.nodup_cons.mp hnd).2 s hs'

lemma plainEdges_filter (w : Workflow) (s : String) (hs : s ∈ sourceIds w) :
    (plainEdges w).filter (fun e => e.1 = s) = blockEdgesOf w s := by
  rw [plainEdges_eq]
  exact filter_flatten_blocks (blockEdgesOf w)
    (fun s' e he => blockEdgesOf_fst w s' e he) (sourceIds w) (sourceIds_nodup w) s hs

lemma exitEdges_targets_empty (w : Workflow) :
    ∀ e ∈ exitEdges w, (adjacencyTargets w e.1).isEmpty = true := by
  intro e he
  rw [exitEdges] at he
  rcases List.mem_filterMap.mp he with ⟨s, _, hs⟩
  by_cases h : (adjacencyTargets w s).isEmpty && !isIfNode w s
  · rw [if_pos h] at hs
    cases hs
    exact (Bool.and_eq_true _ _ |>.mp h).1
  · rw [if_neg h] at hs
    cases hs

lemma allEdges_filter (w : Workflow) (s : String) (hs : s ∈ sourceIds w)
    (hne : (adjacencyTargets w s).isEmpty = false) :
    (allEdges w).filter (fun e => e.1 = s) = blockEdgesOf w s := by
  rw [allEdges, List.filter_append, plainEdges_filter w s hs]
  have hexit : (exitEdges w).filter (fun e => e.1 = s) = [] := by
    rw [List.filter_eq_nil_iff]
    intro e he
    simp only [decide_eq_true_eq]
    intro hes
    have := exitEdges_targets_empty w e he
    rw [hes, hne] at this
    cases this
  rw [hexit, List.append_nil]

/-! ## Characterizing `aiFromRag` / `aiFromSheets` -/

lemma getLast?_cons_eq (a : α) (l : List α) :
    (a :: l).getLast? = some (l.getLast?.getD a) := by
  induction l generalizing a with
  | nil => simp
  | cons b m ih =>
    rw [List.getLast?_cons_cons, ih b]
    rfl

lemma foldl_if_some (P : String → Bool) :
    ∀ (l : List String) (acc : Option String),
      l.foldl (fun acc r => if P r then some r else acc) acc =
        ((l.filter P).getLast?).or acc := by
  intro l
  induction l with
  | nil => intro acc; simp
  | cons a l ih =>
    intro acc
    rw [List.foldl_cons, ih]
    by_cases hP : P a
    · rw [List.filter_cons_of_pos hP, if_pos hP, getLast?_cons_eq]
      cases hl : (l.filter P).getLast? with
      | none => simp
      | some y => simp
    · rw [List.filter_cons_of_neg hP, if_neg hP]

lemma aiFromRag_of_filter {w : Workflow} {a r : String}
    (h : (ragNodeIds w).filter
        (fun rid => (adjacencyTargets w rid).any (fun t => t.1 == a && isAiNode w t.1)) = [r]) :
    aiFromRag w a = some r := by
  rw [aiFromRag, foldl_if_some, h]
  rfl

lemma aiFromSheets_of_filter {w : Workflow} {a s : String}
    (h : (sheetsNodeIds w).filter
        (fun sid => (adjacencyTargets w sid).any (fun t => t.1 == a && isAiNode w t.1)) = [s]) :
    aiFromSheets w a = some s := by
  rw [aiFromSheets, foldl_if_some, h]
  rfl

/-! ## Engine lemmas -/

lemma applyProc_log (w : Workflow) (rex : RegexOracle) (nid : String) (st : WState) :
    ∃ t, (applyProc w rex nid st).nodes_executed = st.nodes_executed ++ t := by
  rw [applyProc]
  split_ifs <;>
    first
      | exact ⟨["text-input"], rfl⟩
      | exact ⟨["ai-model"], rfl⟩
      | exact ⟨["rag-documents"], rfl⟩
      | exact ⟨["google-sheets"], rfl⟩
      | exact ⟨["if-condition"], rfl⟩
      | exact ⟨["text-output"], rfl⟩
      | exact ⟨[], (List.append_nil _).symm⟩

lemma runFrom_log (w : Workflow) (rex : RegexOracle) (edges : List Edge) :
    ∀ (fuel : Nat) (cur : String) (st st' : WState),
      runFrom w rex edges fuel cur st = Except.ok st' →
      ∃ tl, st'.nodes_executed = st.nodes_executed ++ tl := by
  intro fuel
  induction fuel with
  | zero => intro cur st st' h; cases h
  | succ fuel ih =>
    intro cur st st' h
    simp only [runFrom] at h
    by_cases hproc : hasProcessor w cur
    · rw [if_pos hproc] at h
      obtain ⟨t1, ht1⟩ := applyProc_log w rex cur st
      by_cases hif : isIfNode w cur
      · rw [if_pos hif] at h
        by_cases htgt : routerFn (trueTargets w cur) (falseTargets w cur)
            ((lookupBool (applyProc w rex cur st).condition_results cur).getD false) = ENDS
        · rw [if_pos htgt] at h
          simp only [Except.ok.injEq] at h
          subst h
          exact ⟨t1, ht1⟩
        · rw [if_neg htgt] at h
          by_cases hmem : nodeIdsContain w (routerFn (trueTargets w cur) (falseTargets w cur)
              ((lookupBool (applyProc w rex cur st).condition_results cur).getD false))
          · rw [if_pos hmem] at h
            obtain ⟨t2, ht2⟩ := ih _ _ _ h
            exact ⟨t1 ++ t2, by rw [ht2, ht1, List.append_assoc]⟩
          · rw [if_neg hmem] at h
            cases h
      · rw [if_neg hif] at h
        cases hsucc : (edges.filter (fun e => e.1 = cur)).head? with
        | none =>
          rw [hsucc] at h
          simp only [Except.ok.injEq] at h
          subst h
          exact ⟨t1, ht1⟩
        | some e =>
          rw [hsucc] at h
          dsimp only at h
          by_cases hend : e.2 = ENDS
          · rw [if_pos hend] at h
            simp only [Except.ok.injEq] at h
            subst h
            exact ⟨t1, ht1⟩
          · rw [if_neg hend] at h
            obtain ⟨t2, ht2⟩ := ih _ _ _ h
            exact ⟨t1 ++ t2, by rw [ht2, ht1, List.append_assoc]⟩
    · rw [if_neg hproc] at h
      cases h

lemma runFrom_step_plain (w : Workflow) (rex : RegexOracle) (edges : List Edge)
    (fuel : Nat) (cur : String) (st : WState) (p : Edge)
    (hproc : hasProcessor w cur = true) (hif : isIfNode w cur = false)
    (hsucc : (edges.filter (fun e => e.1 = cur)).head? = some p) (hne : p.2 ≠ ENDS) :
    runFrom w rex edges (fuel + 1) cur st =
      runFrom w rex edges fuel p.2 (applyProc w rex cur st) := by
  simp only [runFrom]
  rw [if_pos hproc, if_neg (by rw [hif]; exact Bool.false_ne_true), hsucc]
  dsimp only
  rw [if_neg hne]

lemma mem_dedupPairsGo_iff : ∀ (l seen : List Edge) (e : Edge),
    e ∈ dedupPairsGo l seen ↔ e ∈ l ∧ e ∉ seen := by
  intro l
  induction l with
  | nil => intro seen e; simp [dedupPairsGo]
  | cons a l ih =>
    intro seen e
    by_cases ha : a ∈ seen
    · rw [dedupPairsGo, if_pos ha, ih]
      constructor
      · rintro ⟨h1, h2⟩
        exact ⟨List.mem_cons_of_mem _ h1, h2⟩
      · rintro ⟨h1, h2⟩
        rcases List.mem_cons.mp h1 with rfl | h1
        · exact absurd ha h2
        · exact ⟨h1, h2⟩
    · rw [dedupPairsGo, if_neg ha, List.mem_cons, ih]
      constructor
      · rintro (rfl | ⟨h1, h2⟩)
        · exact ⟨List.mem_cons_self _ _, ha⟩
        · exact ⟨List.mem_cons_of_mem _ h1,
            fun hx => h2 (List.mem_cons_of_mem _ hx)⟩
      · rintro ⟨h1, h2⟩
        by_cases hxa : e = a
        · exact Or.inl hxa
        · rcases List.mem_cons.mp h1 with rfl | h1
          · exact Or.inl rfl
          · refine Or.inr ⟨h1, fun hx => ?_⟩
            rcases List.mem_cons.mp hx with rfl | hx
            · exact hxa rfl
            · exact h2 hx

/-! ## Concrete workflows used as counterexamples and witnesses -/

/-- A regex oracle that always succeeds with `false`; concrete instantiation
for witnesses. -/
def rexFalse : RegexOracle := fun _ _ => Except.ok false

/-- C1 counterexample workflow: the rag node `r` feeds only the ai node `a`,
the input `i` is wired to `a` — but `i` also fans out to a text-output `x`
whose edge is declared first. -/
def cex1 : Workflow :=
  { nodes := [ { id := "i", type := "text-input" }, { id := "x", type := "text-output" },
               { id := "a", type := "ai-model" }, { id := "r", type := "rag-documents" } ],
    connections := [ { sourceNodeId := "i", targetNodeId := "x" },
                     { sourceNodeId := "i", targetNodeId := "a" },
                     { sourceNodeId := "x", targetNodeId := "a" },
                     { sourceNodeId := "r", targetNodeId := "a" } ] }

/-- C1 witness workflow: input, rag and ai in the claim's intended shape. -/
def wit1 : Workflow :=
  { nodes := [ { id := "i", type := "text-input" }, { id := "r", type := "rag-documents" },
               { id := "a", type := "ai-model" }, { id := "o", type := "text-output" } ],
    connections := [ { sourceNodeId := "i", targetNodeId := "a" },
                     { sourceNodeId := "r", targetNodeId := "a" },
                     { sourceNodeId := "a", targetNodeId := "o" } ] }

/-- C3 workflow: a rag node and a sheets node both feed the same ai node. -/
def cex3 : Workflow :=
  { nodes := [ { id := "i", type := "text-input" }, { id := "r", type := "rag-documents" },
               { id := "s", type := "google-sheets" }, { id := "a", type := "ai-model" },
               { id := "o", type := "text-output" } ],
    connections := [ { sourceNodeId := "i", targetNodeId := "a" },
                     { sourceNodeId := "r", targetNodeId := "a" },
                     { sourceNodeId := "s", targetNodeId := "a" },
                     { sourceNodeId := "a", targetNodeId := "o" } ] }

/-- C4 workflow: a non-conditional node `n1` with two outgoing connections. -/
def cex4 : Workflow :=
  { nodes := [ { id := "n1", type := "text-output" }, { id := "a", type := "ai-model" },
               { id := "b", type := "text-output" } ],
    connections := [ { sourceNodeId := "n1", targetNodeId := "a" },
                     { sourceNodeId := "n1", targetNodeId := "b" } ] }

/-- C6 workflow: two entry candidates, a text-output declared first and a
google-sheets node, neither of input or retrieval kind. -/
def cex6 : Workflow :=
  { nodes := [ { id := "out-first", type := "text-output" },
               { id := "sheets-1", type := "google-sheets" },
               { id := "sink", type := "text-output" } ],
    connections := [ { sourceNodeId := "out-first", targetNodeId := "sink" },
                     { sourceNodeId := "sheets-1", targetNodeId := "sink" } ] }

/-- C8 witness workflow: input and output nodes, all referenced, no ai-model
node. -/
def wit8 : Workflow :=
  { nodes := [ { id := "in1", type := "text-input" }, { id := "out1", type := "text-output" } ],
    connections := [ { sourceNodeId := "in1", targetNodeId := "out1" } ] }

/-! ## Claim C4 -/

/-- C4, counterexample: the non-conditional node `n1` has two literal
outgoing connections, and the compiled plan keeps BOTH edges — the second one
is not dropped, contradicting the claim that only the first is kept. -/
theorem C4_counterexample :
    isIfNode cex4 "n1" = false ∧
    (adjacencyTargets cex4 "n1").length = 2 ∧
    plainEdges cex4 = [("n1", "a"), ("n1", "b")] ∧
    ("n1", "b") ∈ plainEdges cex4 := by
  refine ⟨rfl, rfl, rfl, by decide⟩

/-- C4, amended: for every non-conditional node the compiled plan keeps one
edge per distinct `(source, target)` pair of its literal outgoing connections
(targets of input nodes being redirected by the context rule first), in first
occurrence order; only exact duplicate pairs are dropped, and in particular
every distinct redirected target of the node is kept as an edge. -/
theorem C4_amended (w : Workflow) (s : String)
    (hs : s ∈ sourceIds w) (hif : isIfNode w s = false) :
    (plainEdges w).filter (fun e => e.1 = s) =
      dedupPairsGo ((adjacencyTargets w s).map
        (fun t => (s, if isInputNode w s then inputRedirectTarget w t.1 else t.1))) [] ∧
    ∀ t ∈ adjacencyTargets w s,
      (s, if isInputNode w s then inputRedirectTarget w t.1 else t.1) ∈ plainEdges w := by
  have hblock : blockEdgesOf w s =
      dedupPairsGo ((adjacencyTargets w s).map
        (fun t => (s, if isInputNode w s then inputRedirectTarget w t.1 else t.1))) [] := by
    rw [blockEdgesOf]
    by_cases h1 : (adjacencyTargets w s).isEmpty
    · rw [if_pos h1, List.isEmpty_iff.mp h1]
      rfl
    · rw [if_neg h1, if_neg (by rw [hif]; exact Bool.false_ne_true)]
      by_cases h3 : isInputNode w s
      · rw [if_pos h3]
        congr 1
        refine List.map_congr_left (fun t _ => ?_)
        rw [if_pos h3]
      · rw [if_neg h3]
        congr 1
        refine List.map_congr_left (fun t _ => ?_)
        rw [if_neg h3]
  refine ⟨by rw [plainEdges_filter w s hs, hblock], fun t ht => ?_⟩
  rw [mem_plainEdges]
  refine ⟨s, hs, ?_⟩
  rw [hblock, mem_dedupPairsGo_iff]
  exact ⟨List.mem_map.mpr ⟨t, ht, rfl⟩, List.not_mem_nil _⟩

/-- Witness for C4's amended theorem at the concrete fan-out workflow: both
distinct outgoing edges of `n1` are kept. -/
theorem C4_amended_witness :
    ("n1", "a") ∈ plainEdges cex4 ∧ ("n1", "b") ∈ plainEdges cex4 := by
  have h := (C4_amended cex4 "n1" (by decide) rfl).2
  constructor
  · have := h ("a", "", "") (by decide)
    simpa using this
  · have := h ("b", "", "") (by decide)
    simpa using this

/-! ## Claim C5 -/

/-- C5: `execute` always returns a structured result; a failure while
building the graph, or a failure reported by the runtime invocation (which
wraps every node behavior), is converted into an error-message response with
an empty log and no model, and a successful run is reduced to its response,
log and model fields.  `executeModel` is a total function — no exception
propagates. -/
theorem C5_execute_total (w : Workflow) (run : CompiledPlan → Except String WState) :
    (∃ e, buildGraph w = Except.error e ∧
      executeModel w run =
        { response := "Error building workflow: " ++ e, nodes_executed := [],
          model_used := none }) ∨
    (∃ p e, buildGraph w = Except.ok p ∧ run p = Except.error e ∧
      executeModel w run =
        { response := "Error executing workflow: " ++ e, nodes_executed := [],
          model_used := none }) ∨
    (∃ p st, buildGraph w = Except.ok p ∧ run p = Except.ok st ∧
      executeModel w run =
        { response := st.response, nodes_executed := st.nodes_executed,
          model_used := st.model_used }) := by
  cases hb : buildGraph w with
  | error e => exact Or.inl ⟨e, rfl, by simp only [executeModel, hb]⟩
  | ok p =>
    cases hr : run p with
    | error e => exact Or.inr (Or.inl ⟨p, e, rfl, hr, by simp only [executeModel, hb, hr]⟩)
    | ok st => exact Or.inr (Or.inr ⟨p, st, rfl, hr, by simp only [executeModel, hb, hr]⟩)

/-! ## Claim C6 -/

/-- C6, counterexample: both `out-first` (declared first) and `sheets-1` have
no incoming connection; the claim's tie-break (input, then retrieval, then
declaration order) picks `out-first`, but the compiler prefers the
spreadsheet node and picks `sheets-1`. -/
theorem C6_counterexample :
    entryCandidates cex6 = ["out-first", "sheets-1"] ∧
    entryPoint cex6 = some "sheets-1" ∧
    claimEntryPoint cex6 = some "out-first" ∧
    entryPoint cex6 ≠ claimEntryPoint cex6 := by
  refine ⟨rfl, rfl, rfl, by decide⟩

lemma mem_of_head?_eq {l : List α} {a : α} (h : l.head? = some a) : a ∈ l := by
  cases l with
  | nil => cases h
  | cons b t =>
    simp only [List.head?_cons, Option.some.injEq] at h
    simp [h]

/-- C6, amended: the entry node is always a node with no incoming connection
in the original graph, and ties are broken by preferring an input-kind node,
then a retrieval-kind node, then a spreadsheet-kind node, then declaration
order. -/
theorem C6_amended (w : Workflow) :
    entryPoint w =
      ((entryCandidates w).filter (isInputNode w) ++
        ((entryCandidates w).filter (isRagNode w) ++
          ((entryCandidates w).filter (isSheetsNode w) ++ entryCandidates w))).head? ∧
    ∀ e, entryPoint w = some e → originalIncoming w e = 0 := by
  have hcand : ∀ e, entryPoint w = some e → e ∈ entryCandidates w := by
    intro e he
    rw [entryPoint] at he
    cases h1 : (entryCandidates w).filter (isInputNode w) with
    | cons i t =>
      rw [h1] at he
      simp only [Option.some.injEq] at he
      subst he
      have hmem : i ∈ (entryCandidates w).filter (isInputNode w) := by
        rw [h1]
        exact List.mem_cons_self _ _
      exact (List.mem_filter.mp hmem).1
    | nil =>
      rw [h1] at he
      cases h2 : (entryCandidates w).filter (isRagNode w) with
      | cons r t =>
        rw [h2] at he
        simp only [Option.some.injEq] at he
        subst he
        have hmem : r ∈ (entryCandidates w).filter (isRagNode w) := by
          rw [h2]
          exact List.mem_cons_self _ _
        exact (List.mem_filter.mp hmem).1
      | nil =>
        rw [h2] at he
        cases h3 : (entryCandidates w).filter (isSheetsNode w) with
        | cons s t =>
          rw [h3] at he
          simp only [Option.some.injEq] at he
          subst he
          have hmem : s ∈ (entryCandidates w).filter (isSheetsNode w) := by
            rw [h3]
            exact List.mem_cons_self _ _
          exact (List.mem_filter.mp hmem).1
        | nil =>
          rw [h3] at he
          exact mem_of_head?_eq he
  constructor
  · rw [entryPoint]
    cases h1 : (entryCandidates w).filter (isInputNode w) with
    | cons i t => simp [h1]
    | nil =>
      rw [List.nil_append]
      cases h2 : (entryCandidates w).filter (isRagNode w) with
      | cons r t => simp [h2]
      | nil =>
        rw [List.nil_append]
        cases h3 : (entryCandidates w).filter (isSheetsNode w) with
        | cons s t => simp [h3]
        | nil => rw [List.nil_append]
  · intro e he
    have := hcand e he
    have hmem := List.mem_filter.mp this
    simpa using hmem.2

/-- Witness for C6's amended theorem at the concrete workflow: the resolved
entry has no incoming connection. -/
theorem C6_amended_witness : originalIncoming cex6 "sheets-1" = 0 :=
  (C6_amended cex6).2 "sheets-1" rfl

/-! ## Claim C8 -/

/-- C8: a graph with an input-kind node and an output-kind node, every node
referenced by some connection, and no ai-model node validates to
`valid = false` with exactly one issue, and that issue contains the substring
"AI model node". -/
theorem C8_validate_missing_ai (w : Workflow)
    (hin : ((w.nodes.map (·.type)).contains "text-input" ||
        (w.nodes.map (·.type)).contains "voice-input") = true)
    (hout : ((w.nodes.map (·.type)).contains "text-output" ||
        (w.nodes.map (·.type)).contains "voice-output") = true)
    (hai : (w.nodes.map (·.type)).contains "ai-model" = false)
    (hconn : ∀ n ∈ w.nodes, (connectedNodeIds w).contains n.id = true) :
    (validateWorkflow w).valid = false ∧
    (validateWorkflow w).issues = [aiIssue] ∧
    isSubstrOf "AI model node".toList aiIssue.toList = true := by
  have horph : orphanIds w = [] := by
    rw [orphanIds]
    have hfil : w.nodes.filter
        (fun n => !(connectedNodeIds w).contains n.id && decide (1 < w.nodes.length)) = [] :=
      List.filter_eq_nil_iff.mpr (fun n hn => by
        simp only [hconn n hn, Bool.not_true, Bool.false_and]
        exact Bool.false_ne_true)
    rw [hfil]
    rfl
  refine ⟨?_, ?_, by decide⟩ <;>
    simp only [validateWorkflow, hin, hout, hai, horph, Bool.not_true, Bool.not_false,
      if_true, if_false, List.isEmpty_nil, List.nil_append, List.append_nil] <;>
    rfl

/-- Witness for C8 at a concrete two-node workflow without an ai-model
node. -/
theorem C8_validate_missing_ai_witness :
    (validateWorkflow wit8).valid = false ∧
    (validateWorkflow wit8).issues = [aiIssue] ∧
    isSubstrOf "AI model node".toList aiIssue.toList = true :=
  C8_validate_missing_ai wit8 rfl rfl rfl (by decide)

/-! ## Kind bookkeeping lemmas -/

lemma isKind_true_of_type {w : Workflow} {nid k : String}
    (h : nodeType w nid = some k) : isKind w nid k = true := by
  rw [isKind, h]
  simp

lemma isKind_false_of_type {w : Workflow} {nid k k' : String}
    (h : nodeType w nid = some k) (hk : k ≠ k') : isKind w nid k' = false := by
  rw [isKind, h]
  simp [hk]

lemma inputType_cases {w : Workflow} {nid : String} (h : isInputNode w nid = true) :
    nodeType w nid = some "text-input" ∨ nodeType w nid = some "voice-input" := by
  rw [isInputNode, Bool.or_eq_true] at h
  rcases h with h | h
  · left
    rw [isKind, beq_iff_eq] at h
    exact h
  · right
    rw [isKind, beq_iff_eq] at h
    exact h

lemma isIfNode_false_of_input {w : Workflow} {nid : String}
    (h : isInputNode w nid = true) : isIfNode w nid = false := by
  rcases inputType_cases h with h | h <;>
    exact isKind_false_of_type h (by decide)

lemma isInputNode_false_of_type {w : Workflow} {nid k : String}
    (h : nodeType w nid = some k) (h1 : k ≠ "text-input") (h2 : k ≠ "voice-input") :
    isInputNode w nid = false := by
  rw [isInputNode, isKind_false_of_type h h1, isKind_false_of_type h h2]
  rfl

lemma hasProcessor_of_input {w : Workflow} {nid : String}
    (h : isInputNode w nid = true) : hasProcessor w nid = true := by
  rcases inputType_cases h with h | h <;> simp [hasProcessor, h]

/-! ## Block edge computations for the redirect scenarios -/

lemma inputRedirectTarget_rag {w : Workflow} {a r : String}
    (ha : isAiNode w a = true) (hra : aiFromRag w a = some r) :
    inputRedirectTarget w a = r := by
  rw [inputRedirectTarget, if_pos ha, hra]

lemma blockEdgesOf_input_single {w : Workflow} {i a r sp tp : String}
    (hi : isInputNode w i = true)
    (htgt : adjacencyTargets w i = [(a, sp, tp)])
    (hred : inputRedirectTarget w a = r) :
    blockEdgesOf w i = [(i, r)] := by
  rw [blockEdgesOf, htgt]
  rw [if_neg (by simp), if_neg (by rw [isIfNode_false_of_input hi]; exact Bool.false_ne_true),
    if_pos hi, List.map_cons, List.map_nil]
  simp only [hred, dedupPairsGo, List.not_mem_nil, if_neg]
  rfl

lemma blockEdgesOf_other_single {w : Workflow} {s a sp tp : String}
    (hif : isIfNode w s = false) (hin : isInputNode w s = false)
    (htgt : adjacencyTargets w s = [(a, sp, tp)]) :
    blockEdgesOf w s = [(s, a)] := by
  rw [blockEdgesOf, htgt]
  rw [if_neg (by simp), if_neg (by rw [hif]; exact Bool.false_ne_true),
    if_neg (by rw [hin]; exact Bool.false_ne_true), List.map_cons, List.map_nil]
  simp only [dedupPairsGo, List.not_mem_nil, if_neg]
  rfl

/-- Unfolding one non-conditional engine step whose traversal halts or
continues arbitrarily: the final log extends the log after this node's
processor ran. -/
lemma runFrom_ok_log (w : Workflow) (rex : RegexOracle) (edges : List Edge)
    (fuel : Nat) (cur : String) (st : WState) (st' : WState)
    (hproc : hasProcessor w cur = true) (hif : isIfNode w cur = false)
    (h : runFrom w rex edges (fuel + 1) cur st = Except.ok st') :
    ∃ tl, st'.nodes_executed = (applyProc w rex cur st).nodes_executed ++ tl := by
  simp only [runFrom] at h
  rw [if_pos hproc, if_neg (by rw [hif]; exact Bool.false_ne_true)] at h
  cases hsucc : (edges.filter (fun e => e.1 = cur)).head? with
  | none =>
    rw [hsucc] at h
    simp only [Except.ok.injEq] at h
    subst h
    exact ⟨[], (List.append_nil _).symm⟩
  | some e =>
    rw [hsucc] at h
    dsimp only at h
    by_cases hend : e.2 = ENDS
    · rw [if_pos hend] at h
      simp only [Except.ok.injEq] at h
      subst h
      exact ⟨[], (List.append_nil _).symm⟩
    · rw [if_neg hend] at h
      exact runFrom_log w rex edges fuel e.2 _ st' h

lemma applyProc_input {w : Workflow} {nid : String} (rex : RegexOracle) (st : WState)
    (h : isInputNode w nid = true) :
    applyProc w rex nid st = appendTag "text-input" st := by
  rcases inputType_cases h with h | h <;> simp [applyProc, h]

lemma applyProc_rag {w : Workflow} {nid : String} (rex : RegexOracle) (st : WState)
    (h : nodeType w nid = some "rag-documents") :
    applyProc w rex nid st = appendTag "rag-documents" st := by
  simp [applyProc, h]

lemma applyProc_ai {w : Workflow} {nid : String} (rex : RegexOracle) (st : WState)
    (h : nodeType w nid = some "ai-model") :
    applyProc w rex nid st = appendTag "ai-model" st := by
  simp [applyProc, h]

/-! ## Claim C1 -/

/-- C1, amended: when additionally the input node's only outgoing connection
is the one to the ai-model node, the retrieval node is the unique rag node
feeding that ai-model node, and the input node is the resolved entry point,
then the compiler replaces the literal input→ai edge with input→retrieval
while preserving retrieval→ai, and in every successfully completing execution
the retrieval entry appears strictly before the ai-model entry in the log. -/
theorem C1_amended (w : Workflow) (rex : RegexOracle) (msg : String) (i r a : String)
    (hi : isInputNode w i = true)
    (hr : nodeType w r = some "rag-documents")
    (ha : nodeType w a = some "ai-model")
    (hitgt : ∃ sp tp, adjacencyTargets w i = [(a, sp, tp)])
    (hrtgt : ∃ sp tp, adjacencyTargets w r = [(a, sp, tp)])
    (huniq : (ragNodeIds w).filter
        (fun rid => (adjacencyTargets w rid).any (fun t => t.1 == a && isAiNode w t.1)) = [r])
    (hentry : entryPoint w = some i)
    (hrE : r ≠ ENDS) (haE : a ≠ ENDS)
    (st : WState) (hrun : runExec w rex msg = Except.ok st) :
    ((i, a) ∉ plainEdges w ∧ (i, r) ∈ plainEdges w ∧ (r, a) ∈ plainEdges w) ∧
    st.nodes_executed.indexOf "rag-documents" < st.nodes_executed.indexOf "ai-model" ∧
    "ai-model" ∈ st.nodes_executed := by
  obtain ⟨spi, tpi, hit⟩ := hitgt
  obtain ⟨spr, tpr, hrt⟩ := hrtgt
  have hai : isAiNode w a = true := isKind_true_of_type ha
  have hra : aiFromRag w a = some r := aiFromRag_of_filter huniq
  have hsr : r ∈ sourceIds w := nodeType_mem_sourceIds hr
  have hsi : i ∈ sourceIds w := by
    rcases inputType_cases hi with h | h <;> exact nodeType_mem_sourceIds h
  have har : a ≠ r := by
    intro hc
    have hx := ha
    rw [hc, hr] at hx
    simp at hx
  have hifr : isIfNode w r = false := isKind_false_of_type hr (by decide)
  have hinr : isInputNode w r = false :=
    isInputNode_false_of_type hr (by decide) (by decide)
  have hbi : blockEdgesOf w i = [(i, r)] :=
    blockEdgesOf_input_single hi hit (inputRedirectTarget_rag hai hra)
  have hbr : blockEdgesOf w r = [(r, a)] := blockEdgesOf_other_single hifr hinr hrt
  have hmem_ir : (i, r) ∈ plainEdges w :=
    (mem_plainEdges w _).mpr ⟨i, hsi, by rw [hbi]; exact List.mem_cons_self _ _⟩
  have hmem_ra : (r, a) ∈ plainEdges w :=
    (mem_plainEdges w _).mpr ⟨r, hsr, by rw [hbr]; exact List.mem_cons_self _ _⟩
  have hnot_ia : (i, a) ∉ plainEdges w := by
    intro hmem
    obtain ⟨s, hs, hm⟩ := (mem_plainEdges w _).mp hmem
    have hfst := blockEdgesOf_fst w s _ hm
    rw [← hfst] at hm
    rw [hbi] at hm
    rcases List.mem_cons.mp hm with hc | hc
    · exact har (congrArg Prod.snd hc)
    · cases hc
  have hfili : (allEdges w).filter (fun e => e.1 = i) = [(i, r)] := by
    rw [allEdges_filter w i hsi (by rw [hit]; rfl), hbi]
  have hfilr : (allEdges w).filter (fun e => e.1 = r) = [(r, a)] := by
    rw [allEdges_filter w r hsr (by rw [hrt]; rfl), hbr]
  simp only [runExec, hentry] at hrun
  have hstep1 : runFrom w rex (allEdges w) 25 i (initState msg []) =
      runFrom w rex (allEdges w) 24 r (applyProc w rex i (initState msg [])) :=
    runFrom_step_plain w rex (allEdges w) 24 i _ (i, r)
      (hasProcessor_of_input hi) (isIfNode_false_of_input hi) (by rw [hfili]; rfl) hrE
  have hproc_r : hasProcessor w r = true := by simp [hasProcessor, hr]
  have hstep2 : runFrom w rex (allEdges w) 24 r (applyProc w rex i (initState msg [])) =
      runFrom w rex (allEdges w) 23 a
        (applyProc w rex r (applyProc w rex i (initState msg []))) :=
    runFrom_step_plain w rex (allEdges w) 23 r _ (r, a) hproc_r hifr (by rw [hfilr]; rfl) haE
  rw [hstep1, hstep2] at hrun
  have hproc_a : hasProcessor w a = true := by simp [hasProcessor, ha]
  have hifa : isIfNode w a = false := isKind_false_of_type ha (by decide)
  obtain ⟨tl, htl⟩ := runFrom_ok_log w rex (allEdges w) 22 a _ st hproc_a hifa hrun
  have hlog3 : (applyProc w rex a
      (applyProc w rex r (applyProc w rex i (initState msg [])))).nodes_executed =
      ["text-input", "rag-documents", "ai-model"] := by
    rw [applyProc_ai rex _ ha, applyProc_rag rex _ hr, applyProc_input rex _ hi]
    rfl
  have hlog : st.nodes_executed = "text-input" :: "rag-documents" :: "ai-model" :: tl := by
    rw [htl, hlog3]
    rfl
  refine ⟨⟨hnot_ia, hmem_ir, hmem_ra⟩, ?_, ?_⟩
  · have h1 : ("text-input" :: "rag-documents" :: "ai-model" :: tl).indexOf
        "rag-documents" = 1 := rfl
    have h2 : ("text-input" :: "rag-documents" :: "ai-model" :: tl).indexOf
        "ai-model" = 2 := rfl
    rw [hlog, h1, h2]
    decide
  · rw [hlog]
    simp

/-- The final execution state of the witness workflow `wit1`. -/
def wit1st : WState :=
  { user_message := "hi",
    nodes_executed := ["text-input", "rag-documents", "ai-model", "text-output"] }

/-- Witness for C1's amended theorem at the concrete linear workflow: the
redirected edges exist and the log runs retrieval strictly before the
ai-model node. -/
theorem C1_amended_witness :
    (("i", "a") ∉ plainEdges wit1 ∧ ("i", "r") ∈ plainEdges wit1 ∧
      ("r", "a") ∈ plainEdges wit1) ∧
    wit1st.nodes_executed.indexOf "rag-documents" <
      wit1st.nodes_executed.indexOf "ai-model" ∧
    "ai-model" ∈ wit1st.nodes_executed :=
  C1_amended wit1 rexFalse "hi" "i" "r" "a" rfl rfl rfl ⟨"", "", rfl⟩ ⟨"", "", rfl⟩ rfl rfl
    (by decide) (by decide) wit1st rfl

/-- The final execution state of the counterexample workflow `cex1`. -/
def cex1st : WState :=
  { user_message := "hello",
    nodes_executed := ["text-input", "text-output", "ai-model"] }

/-- C1, counterexample: in `cex1` the claim's hypothesis holds — the rag
node's only target is the ai-model node and the input node is wired to that
ai-model node — and the compiler does rewrite the edges as described, yet the
execution log never contains the retrieval entry at all (the input's first
declared edge leads elsewhere and the sequential traversal follows it), so
the retrieval entry does not appear strictly before the ai-model entry. -/
theorem C1_counterexample :
    (∃ sp tp, adjacencyTargets cex1 "r" = [("a", sp, tp)]) ∧
    nodeType cex1 "r" = some "rag-documents" ∧
    nodeType cex1 "a" = some "ai-model" ∧
    isInputNode cex1 "i" = true ∧
    (cex1.connections.filter
      (fun c => c.sourceNodeId == "i" && c.targetNodeId == "a")).length = 1 ∧
    ("i", "a") ∉ plainEdges cex1 ∧ ("i", "r") ∈ plainEdges cex1 ∧
    ("r", "a") ∈ plainEdges cex1 ∧
    runExec cex1 rexFalse "hello" = Except.ok cex1st ∧
    "rag-documents" ∉ cex1st.nodes_executed := by
  refine ⟨⟨"", "", rfl⟩, rfl, rfl, rfl, rfl, by decide, by decide, by decide, rfl, by decide⟩

/-! ## Claim C3 -/

/-- C3, amended: when both a retrieval node and a spreadsheet node feed the
same ai-model node (each with that ai node as its only target, the input
node's only connection going to that ai node, and the retrieval node the
unique rag feeder), the compiler redirects the input edge to the retrieval
node only (retrieval takes precedence over the spreadsheet), keeps both the
retrieval→ai and spreadsheet→ai edges — leaving the ai node with two plain
predecessors — and adds no edge sequencing the spreadsheet after the
retrieval. -/
theorem C3_amended (w : Workflow) (i r s a : String)
    (hi : isInputNode w i = true)
    (hr : nodeType w r = some "rag-documents")
    (hs : nodeType w s = some "google-sheets")
    (ha : nodeType w a = some "ai-model")
    (hitgt : ∃ sp tp, adjacencyTargets w i = [(a, sp, tp)])
    (hrtgt : ∃ sp tp, adjacencyTargets w r = [(a, sp, tp)])
    (hstgt : ∃ sp tp, adjacencyTargets w s = [(a, sp, tp)])
    (huniq : (ragNodeIds w).filter
        (fun rid => (adjacencyTargets w rid).any (fun t => t.1 == a && isAiNode w t.1)) = [r]) :
    ((i, r) ∈ plainEdges w ∧ (r, a) ∈ plainEdges w ∧ (s, a) ∈ plainEdges w) ∧
    ((i, a) ∉ plainEdges w ∧ (i, s) ∉ plainEdges w) ∧
    ((r, s) ∉ plainEdges w ∧ (s, r) ∉ plainEdges w) := by
  obtain ⟨spi, tpi, hit⟩ := hitgt
  obtain ⟨spr, tpr, hrt⟩ := hrtgt
  obtain ⟨sps, tps, hst⟩ := hstgt
  have hai : isAiNode w a = true := isKind_true_of_type ha
  have hra : aiFromRag w a = some r := aiFromRag_of_filter huniq
  have hsi : i ∈ sourceIds w := by
    rcases inputType_cases hi with h | h <;> exact nodeType_mem_sourceIds h
  have hsr : r ∈ sourceIds w := nodeType_mem_sourceIds hr
  have hss : s ∈ sourceIds w := nodeType_mem_sourceIds hs
  have har : a ≠ r := fun hc => by
    have hx := ha
    rw [hc, hr] at hx
    simp at hx
  have has : a ≠ s := fun hc => by
    have hx := ha
    rw [hc, hs] at hx
    simp at hx
  have hrs : r ≠ s := fun hc => by
    have hx := hr
    rw [hc, hs] at hx
    simp at hx
  have hifr : isIfNode w r = false := isKind_false_of_type hr (by decide)
  have hinr : isInputNode w r = false :=
    isInputNode_false_of_type hr (by decide) (by decide)
  have hifs : isIfNode w s = false := isKind_false_of_type hs (by decide)
  have hins : isInputNode w s = false :=
    isInputNode_false_of_type hs (by decide) (by decide)
  have hbi : blockEdgesOf w i = [(i, r)] :=
    blockEdgesOf_input_single hi hit (inputRedirectTarget_rag hai hra)
  have hbr : blockEdgesOf w r = [(r, a)] := blockEdgesOf_other_single hifr hinr hrt
  have hbs : blockEdgesOf w s = [(s, a)] := blockEdgesOf_other_single hifs hins hst
  refine ⟨⟨?_, ?_, ?_⟩, ⟨?_, ?_⟩, ⟨?_, ?_⟩⟩
  · exact (mem_plainEdges w _).mpr ⟨i, hsi, by rw [hbi]; exact List.mem_cons_self _ _⟩
  · exact (mem_plainEdges w _).mpr ⟨r, hsr, by rw [hbr]; exact List.mem_cons_self _ _⟩
  · exact (mem_plainEdges w _).mpr ⟨s, hss, by rw [hbs]; exact List.mem_cons_self _ _⟩
  · intro hmem
    obtain ⟨z, hz, hm⟩ := (mem_plainEdges w _).mp hmem
    rw [← blockEdgesOf_fst w z _ hm] at hm
    rw [hbi] at hm
    rcases List.mem_cons.mp hm with hc | hc
    · exact har (congrArg Prod.snd hc)
    · cases hc
  · intro hmem
    obtain ⟨z, hz, hm⟩ := (mem_plainEdges w _).mp hmem
    rw [← blockEdgesOf_fst w z _ hm] at hm
    rw [hbi] at hm
    rcases List.mem_cons.mp hm with hc | hc
    · exact hrs (congrArg Prod.snd hc).symm
    · cases hc
  · intro hmem
    obtain ⟨z, hz, hm⟩ := (mem_plainEdges w _).mp hmem
    rw [← blockEdgesOf_fst w z _ hm] at hm
    rw [hbr] at hm
    rcases List.mem_cons.mp hm with hc | hc
    · exact has (congrArg Prod.snd hc).symm
    · cases hc
  · intro hmem
    obtain ⟨z, hz, hm⟩ := (mem_plainEdges w _).mp hmem
    rw [← blockEdgesOf_fst w z _ hm] at hm
    rw [hbs] at hm
    rcases List.mem_cons.mp hm with hc | hc
    · exact har (congrArg Prod.snd hc).symm
    · cases hc

/-- Witness for C3's amended theorem at the concrete two-feeder workflow. -/
theorem C3_amended_witness :
    (("i", "r") ∈ plainEdges cex3 ∧ ("r", "a") ∈ plainEdges cex3 ∧
      ("s", "a") ∈ plainEdges cex3) ∧
    (("i", "a") ∉ plainEdges cex3 ∧ ("i", "s") ∉ plainEdges cex3) ∧
    (("r", "s") ∉ plainEdges cex3 ∧ ("s", "r") ∉ plainEdges cex3) :=
  C3_amended cex3 "i" "r" "s" "a" rfl rfl rfl rfl
    ⟨"", "", rfl⟩ ⟨"", "", rfl⟩ ⟨"", "", rfl⟩ rfl

/-- The final execution state of the workflow `cex3`. -/
def cex3st : WState :=
  { user_message := "hello",
    nodes_executed := ["text-input", "rag-documents", "ai-model", "text-output"] }

/-- C3, counterexample: with both a retrieval and a spreadsheet feeding the
same ai-model node, the compiled plan contains no edge placing the
spreadsheet after the retrieval — retrieval and spreadsheet are two parallel
predecessors of the ai node, and the sequential execution log never even
contains the spreadsheet entry, contradicting the claimed single sequential
chain "retrieval, then spreadsheet, then ai-model". -/
theorem C3_counterexample :
    nodeType cex3 "r" = some "rag-documents" ∧
    nodeType cex3 "s" = some "google-sheets" ∧
    nodeType cex3 "a" = some "ai-model" ∧
    (∃ sp tp, adjacencyTargets cex3 "r" = [("a", sp, tp)]) ∧
    (∃ sp tp, adjacencyTargets cex3 "s" = [("a", sp, tp)]) ∧
    plainEdges cex3 = [("i", "r"), ("r", "a"), ("s", "a"), ("a", "o")] ∧
    ("r", "s") ∉ plainEdges cex3 ∧ ("s", "r") ∉ plainEdges cex3 ∧
    runExec cex3 rexFalse "hello" = Except.ok cex3st ∧
    "google-sheets" ∉ cex3st.nodes_executed := by
  refine ⟨rfl, rfl, rfl, ⟨"", "", rfl⟩, ⟨"", "", rfl⟩, rfl, by decide, by decide, rfl,
    by decide⟩

end WorkflowExec
